import Mathlib

/-!
Verification of the template front end: the `AstBuilder` span-tracking
construction utility and the `HandlebarsNodeVisitors` CST-to-AST translator
(src/packages/@glimmer/runtime/lib/helpers/fn.ts), against the natural-language
specification.  JavaScript strings are modelled as `List Char`; JavaScript
objects become Lean structures; mutable cursor state is threaded explicitly.
-/

/-! ### Common positions and character-list helpers -/

/-- A line/column position, the native reference frame of the Handlebars CST
(1-indexed line, 0-indexed column). -/
structure Posn where
  line : Nat
  column : Nat
deriving DecidableEq, Repr

/-- A source location `\x7bstart, end\x7d` in the line/column frame.  The source
field `end` is a Lean keyword, so it is called `stop` here. -/
structure Loc where
  start : Posn
  stop : Posn
deriving DecidableEq, Repr

/-- A structural syntax error, as produced by `generateSyntaxError`: a message
and the span of the offending construct. -/
structure SyntaxErr where
  message : String
  loc : Loc
deriving DecidableEq, Repr

/-- The sentinel `NON_EXISTENT_LOCATION` used for synthetic nodes. -/
def nonExistentLoc : Loc := { start := { line := 0, column := 0 }, stop := { line := 0, column := 0 } }

/-- JavaScript `s.split(c)` for a single-character separator: the list of
chunks of `s` between occurrences of `c`.  Always non-empty. -/
def splitChar (c : Char) : List Char → List (List Char)
  | [] => [] :: []
  | x :: xs =>
    match splitChar c xs with
    | [] => [] :: []
    | y :: ys => if x = c then [] :: y :: ys else (x :: y) :: ys

/-- JavaScript `s.split(sep)[0]` for a non-empty separator `sep`: the prefix of
`s` before the first occurrence of `sep`, or all of `s` when `sep` does not
occur. -/
def splitBeforeFirst (sep : List Char) : List Char → List Char
  | [] => []
  | x :: xs => if sep.isPrefixOf (x :: xs) then [] else x :: splitBeforeFirst sep xs

/-- JavaScript `Array.prototype.join(c)` for a single-character separator. -/
def joinWith (c : Char) : List (List Char) → List Char
  | [] => []
  | x :: [] => x
  | x :: xs => x ++ c :: joinWith c xs

/-- The number of newline characters in a text. -/
def countNewlines (s : List Char) : Nat := s.count '\n'

/-- The lines of a text: the chunks between newline characters. -/
def linesOf (s : List Char) : List (List Char) := splitChar '\n' s

/-- The length of the last line of a text (the chunk after the last newline). -/
def lastLineLength (s : List Char) : Nat := ((linesOf s).getLastD []).length

/-- The characters of the keyword `this`. -/
def thisChars : List Char := String.toList "this"

/-! ### AstBuilder: span model and cursor primitives

The builder tracks a character-offset cursor `this.pos`; each node's span is a
pair of offsets. -/

/-- A builder span `\x7bstart, end\x7d` in character offsets (`hbs.Span`); the field
`end` is a Lean keyword, so it is called `stop`. -/
structure BSpan where
  start : Nat
  stop : Nat
deriving DecidableEq, Repr

/-- `AstBuilder.consume(chars)`: advance the cursor by the length of `chars`
and return the covered span.  The mutable `this.pos` is threaded as the `Nat`
argument and second result. -/
def consumeB (chars : List Char) (pos : Nat) : BSpan × Nat :=
  ({ start := pos, stop := pos + chars.length }, pos + chars.length)

/-- `AstBuilder.spanned(cb)`: record the cursor, run the callback (which may
consume characters and returns a continuation), build the span from the cursor
positions before and after the callback, and apply the continuation to it.
Because the continuation closes over the mutable builder, it may itself consume
further characters after the span has been fixed; this is modelled by giving
the continuation its own cursor argument and result. -/
def spannedB {α : Type} (cb : Nat → ((BSpan → Nat → α × Nat) × Nat)) (pos : Nat) : α × Nat :=
  let r := cb pos
  r.1 { start := pos, stop := r.2 } r.2

/-- Span containment: `child` lies entirely within `parent`. -/
def spanWithin (parent child : BSpan) : Prop :=
  parent.start ≤ child.start ∧ child.stop ≤ parent.stop

instance (parent child : BSpan) : Decidable (spanWithin parent child) := by
  unfold spanWithin
  infer_instance

/-! ### AstBuilder: input (builder-description) types

These mirror the builder-side `Statement` / `Expression` / `Hash` interfaces.
`CommentStatement` and `SubExpression` inputs hit the `unimplemented` throw in
`visit` / `expr` and are outside the embedding; `Undefined` / `Null` literals
likewise.  Number literals are restricted to integers (JavaScript numbers
print identically for them). -/

/-- Builder path heads (`LocalReference` / `ArgReference` / `This`). -/
inductive BHead where
  | localRef (name : List Char)
  | argRef (name : List Char)
  | thisRef
deriving DecidableEq, Repr

/-- Builder `PathExpression` description: a head and an optional dotted tail
(`tail: string[] | null`). -/
structure BPath where
  head : BHead
  tail : Option (List (List Char))
deriving DecidableEq, Repr

/-- Builder literal descriptions handled by `expr`. -/
inductive BLiteral where
  | strVal (value : List Char)
  | boolVal (value : Bool)
  | numVal (value : Int)
deriving DecidableEq, Repr

/-- Builder expression descriptions handled by `expr`. -/
inductive BExpr where
  | lit (value : BLiteral)
  | path (p : BPath)
deriving DecidableEq, Repr

/-- Builder `HashPair` description. -/
structure BHashPair where
  key : List Char
  value : BExpr
deriving DecidableEq, Repr

/-- Builder `Hash` description. -/
structure BHash where
  pairs : List BHashPair
deriving DecidableEq, Repr

-- Builder statement descriptions handled by `visit`, and programs.  The
-- source `Program` interface always has `blockParams`, but `build`'s
-- `BuilderAst` input lacks it, so it is optional here, matching the
-- JavaScript truthiness test `if (program.blockParams)`.
mutual
inductive BStatement where
  | content (value : List Char)
  | contentMustache (value : BExpr)
  | mustacheCall (call : BExpr) (params : List BExpr) (hash : Option BHash)
  | blockCall (call : BPath) (params : List BExpr) (hash : Option BHash)
      (program : BProgram) (inverse : Option BProgram)
inductive BProgram where
  | mk (body : List BStatement) (blockParams : Option (List (List Char)))
end

/-! ### AstBuilder: output (`hbs.*`) node types -/

/-- Strip flags (`\x7bopen, close\x7d`); the field names are Lean keywords, so they
are `openFlag` / `closeFlag` here. -/
structure BStrip where
  openFlag : Bool
  closeFlag : Bool
deriving DecidableEq, Repr

/-- `NO_STRIP`. -/
def noStripB : BStrip := { openFlag := false, closeFlag := false }

/-- Output path heads (`hbs.Head`), each carrying its span. -/
inductive NHead where
  | localRef (span : BSpan) (name : List Char)
  | thisRef (span : BSpan)
  | argRef (span : BSpan) (name : List Char)
deriving DecidableEq, Repr

/-- Output path segment (`hbs.PathSegment`). -/
structure NSegment where
  span : BSpan
  name : List Char
deriving DecidableEq, Repr

/-- Output path expression (`hbs.PathExpression`). -/
structure NPath where
  span : BSpan
  head : NHead
  tail : Option (List NSegment)
deriving DecidableEq, Repr

/-- Output expressions (`hbs.Expression`) produced by `expr`. -/
inductive NExpr where
  | boolLit (span : BSpan) (value : Bool)
  | numLit (span : BSpan) (value : Int)
  | strLit (span : BSpan) (value : List Char)
  | path (p : NPath)
deriving DecidableEq, Repr

/-- Output hash pair (`hbs.HashPair`). -/
structure NHashPair where
  span : BSpan
  key : List Char
  value : NExpr
deriving DecidableEq, Repr

/-- Output hash (`hbs.Hash`). -/
structure NHash where
  span : BSpan
  pairs : List NHashPair
deriving DecidableEq, Repr

-- Output statements and programs (`hbs.Statement` / `hbs.Program`).
mutual
inductive NStatement where
  | content (span : BSpan) (value : List Char) (strip : BStrip)
  | mustacheContent (span : BSpan) (value : NExpr)
  | mustacheStatement (span : BSpan) (call : NExpr) (params : List NExpr)
      (hash : Option NHash) (trusted : Bool) (strip : BStrip)
  | blockStatement (span : BSpan) (chained : Bool) (call : NPath) (params : List NExpr)
      (hash : Option NHash) (program : NProgram) (inverse : Option NProgram)
      (openStrip : BStrip) (inverseStrip : BStrip) (closeStrip : BStrip)
inductive NProgram where
  | mk (span : BSpan) (body : List NStatement) (blockParams : Option (List (List Char)))
end

/-- The span of an output expression. -/
def NExpr.span : NExpr → BSpan
  | .boolLit sp _ => sp
  | .numLit sp _ => sp
  | .strLit sp _ => sp
  | .path p => p.span

/-- The span of an output statement. -/
def NStatement.span : NStatement → BSpan
  | .content sp _ _ => sp
  | .mustacheContent sp _ => sp
  | .mustacheStatement sp _ _ _ _ _ => sp
  | .blockStatement sp _ _ _ _ _ _ _ _ _ => sp

/-- The span of an output program. -/
def NProgram.span : NProgram → BSpan
  | .mk sp _ _ => sp

/-! ### AstBuilder: the construction functions

Each method of `AstBuilder` becomes a function threading the cursor. -/

/-- A minimal model of `JSON.stringify` on strings: quote and escape the common
escapes.  Only the consumed length matters for spans. -/
def jsonEscapeChar (c : Char) : List Char :=
  if c = '"' then '\\' :: '"' :: []
  else if c = '\\' then '\\' :: '\\' :: []
  else if c = '\n' then '\\' :: 'n' :: []
  else c :: []

/-- `JSON.stringify` on a string value (model). -/
def jsonStringify (s : List Char) : List Char :=
  '"' :: (s.map jsonEscapeChar).flatten ++ ('"' :: [])

/-- `AstBuilder.var(item)`: `spanned` over consuming the head's source text
(`name`, `this`, or `@` followed by the name). -/
def varB (item : BHead) (pos : Nat) : NHead × Nat :=
  spannedB (fun pos0 =>
    match item with
    | .localRef name =>
      let r := consumeB name pos0
      ((fun sp p' => (NHead.localRef sp name, p')), r.2)
    | .thisRef =>
      let r := consumeB thisChars pos0
      ((fun sp p' => (NHead.thisRef sp, p')), r.2)
    | .argRef name =>
      let r1 := consumeB ('@' :: []) pos0
      let r2 := consumeB name r1.2
      ((fun sp p' => (NHead.argRef sp name, p')), r2.2)) pos

/-- One segment of `AstBuilder.segments`: the `.` is consumed before the
`spanned` call, so the dot lies outside the segment's span. -/
def segmentB (item : List Char) (pos : Nat) : NSegment × Nat :=
  let rdot := consumeB ('.' :: []) pos
  spannedB (fun pos0 =>
    let r := consumeB item pos0
    ((fun sp p' => (({ span := sp, name := item } : NSegment), p')), r.2)) rdot.2

/-- The `items.map(...)` loop inside `AstBuilder.segments`. -/
def segmentsListB (items : List (List Char)) (pos : Nat) : List NSegment × Nat :=
  match items with
  | [] => ([], pos)
  | item :: rest =>
    let r := segmentB item pos
    let rs := segmentsListB rest r.2
    (r.1 :: rs.1, rs.2)

/-- `AstBuilder.segments(items)`: `null` maps to `none`. -/
def segmentsB (items : Option (List (List Char))) (pos : Nat) : Option (List NSegment) × Nat :=
  match items with
  | none => (none, pos)
  | some items =>
    let r := segmentsListB items pos
    (some r.1, r.2)

/-- `AstBuilder.path(expression)`. -/
def pathVB (p : BPath) (pos : Nat) : NPath × Nat :=
  spannedB (fun pos0 =>
    let rh := varB p.head pos0
    let rt := segmentsB p.tail rh.2
    ((fun sp p' => (({ span := sp, head := rh.1, tail := rt.1 } : NPath), p')), rt.2)) pos

/-- `AstBuilder.expr(expression)`: literals consume their printed source text,
paths delegate to `path`. -/
def exprB (expression : BExpr) (pos : Nat) : NExpr × Nat :=
  match expression with
  | .lit (.boolVal v) =>
    spannedB (fun pos0 =>
      let r := consumeB (String.toList (toString v)) pos0
      ((fun sp p' => (NExpr.boolLit sp v, p')), r.2)) pos
  | .lit (.numVal v) =>
    spannedB (fun pos0 =>
      let r := consumeB (String.toList (toString v)) pos0
      ((fun sp p' => (NExpr.numLit sp v, p')), r.2)) pos
  | .lit (.strVal v) =>
    spannedB (fun pos0 =>
      let r := consumeB (jsonStringify v) pos0
      ((fun sp p' => (NExpr.strLit sp v, p')), r.2)) pos
  | .path p =>
    let r := pathVB p pos
    (NExpr.path r.1, r.2)

/-- `AstBuilder.exprs(params)`. -/
def exprsB (params : List BExpr) (pos : Nat) : List NExpr × Nat :=
  match params with
  | [] => ([], pos)
  | p :: rest =>
    let r := exprB p pos
    let rs := exprsB rest r.2
    (r.1 :: rs.1, rs.2)

/-- `AstBuilder.hashPair(pair)`.  In the source, the callback handed to
`spanned` consumes nothing and immediately returns a closure; `spanned`
therefore records the empty span at the current cursor, and only afterwards
does the closure evaluate `this.expr(pair.value)`, consuming the value's
characters once the pair's span is already fixed (the pair's key and `=` are
never consumed at all). -/
def hashPairB (pair : BHashPair) (pos : Nat) : NHashPair × Nat :=
  spannedB (fun pos0 =>
    ((fun sp p' =>
      let rv := exprB pair.value p'
      (({ span := sp, key := pair.key, value := rv.1 } : NHashPair), rv.2)), pos0)) pos

/-- The `for (let pair of hash.pairs)` loop inside `AstBuilder.hash`. -/
def hashPairsB (pairs : List BHashPair) (pos : Nat) : List NHashPair × Nat :=
  match pairs with
  | [] => ([], pos)
  | p :: rest =>
    let r := hashPairB p pos
    let rs := hashPairsB rest r.2
    (r.1 :: rs.1, rs.2)

/-- `AstBuilder.hash(hash)`: `null` maps to `none`. -/
def hashOptB (hash : Option BHash) (pos : Nat) : Option NHash × Nat :=
  match hash with
  | none => (none, pos)
  | some h =>
    spannedB (fun pos0 =>
      let rp := hashPairsB h.pairs pos0
      ((fun sp p' => (some ({ span := sp, pairs := rp.1 } : NHash), p')), rp.2)) pos

/-- The free `pathString(expr)` helper used to consume the closing tag of a
block.  Note the source appends `tail.join('.')` directly, without a dot
between the head and the first tail segment. -/
def pathStringB (expr : BPath) : List Char :=
  (match expr.head with
    | .argRef name => '@' :: name
    | .localRef name => name
    | .thisRef => thisChars) ++
  (match expr.tail with
    | some tail => joinWith '.' tail
    | none => [])

mutual

/-- `AstBuilder.visit(statement)`. -/
def visitB (statement : BStatement) (pos : Nat) : NStatement × Nat :=
  match statement with
  | .content value =>
    let r := consumeB value pos
    (NStatement.content r.1 value { openFlag := false, closeFlag := false }, r.2)
  | .contentMustache value =>
    spannedB (fun pos0 =>
      let r1 := consumeB (String.toList "\x7b\x7b") pos0
      let rv := exprB value r1.2
      let r2 := consumeB (String.toList "\x7d\x7d") rv.2
      ((fun sp p' => (NStatement.mustacheContent sp rv.1, p')), r2.2)) pos
  | .mustacheCall call params hash =>
    spannedB (fun pos0 =>
      let r1 := consumeB (String.toList "\x7b\x7b") pos0
      let rc := exprB call r1.2
      let rp := exprsB params rc.2
      let rh := hashOptB hash rp.2
      let r2 := consumeB (String.toList "\x7d\x7d") rh.2
      ((fun sp p' => (NStatement.mustacheStatement sp rc.1 rp.1 rh.1 false noStripB, p')), r2.2)) pos
  | .blockCall call params hash program inverse =>
    spannedB (fun pos0 =>
      let r1 := consumeB (String.toList "\x7b\x7b#") pos0
      let rc := pathVB call r1.2
      let rp : List NExpr × Nat :=
        match params with
        | [] => ([], rc.2)
        | _ :: _ =>
          let rsp := consumeB (' ' :: []) rc.2
          exprsB params rsp.2
      let rh : Option NHash × Nat :=
        match hash with
        | none => (none, rp.2)
        | some h =>
          let rsp := consumeB (' ' :: []) rp.2
          hashOptB (some h) rsp.2
      let rprog := programOfB program rh.2
      let rinv : Option NProgram × Nat :=
        match inverse with
        | none => (none, rprog.2)
        | some inv =>
          let rel := consumeB (String.toList "\x7b\x7belse\x7d\x7d") rprog.2
          let ri := programOfB inv rel.2
          (some ri.1, ri.2)
      let r2 := consumeB (String.toList "\x7b\x7b/") rinv.2
      let r3 := consumeB (pathStringB call) r2.2
      let r4 := consumeB (String.toList "\x7d\x7d") r3.2
      ((fun sp p' =>
        (NStatement.blockStatement sp false rc.1 rp.1 rh.1 rprog.1 rinv.1
          noStripB noStripB noStripB, p')), r4.2)) pos

/-- The `body.map(s => this.visit(s))` loops. -/
def visitListB (body : List BStatement) (pos : Nat) : List NStatement × Nat :=
  match body with
  | [] => ([], pos)
  | s :: rest =>
    let r := visitB s pos
    let rs := visitListB rest r.2
    (r.1 :: rs.1, rs.2)

/-- `AstBuilder.program(program)`: first consume the delimiter (`}}` or
`as |...|}}`), then the `spanned` body. -/
def programOfB (program : BProgram) (pos : Nat) : NProgram × Nat :=
  match program with
  | .mk body blockParams =>
    let pos1 :=
      match blockParams with
      | some bps =>
        let r1 := consumeB (String.toList " as |") pos
        let r2 := consumeB (joinWith ' ' bps) r1.2
        (consumeB (String.toList "|\x7d\x7d") r2.2).2
      | none => (consumeB (String.toList "\x7d\x7d") pos).2
    spannedB (fun pos0 =>
      let rb := visitListB body pos0
      ((fun sp p' => (NProgram.mk sp rb.1 blockParams, p')), rb.2)) pos1

end

/-- `AstBuilder.build(program)`: a `spanned` `Program` node over the visited
statements (the `BuilderAst` input carries no block parameters). -/
def buildB (body : List BStatement) (pos : Nat) : NProgram × Nat :=
  spannedB (fun pos0 =>
    let r := visitListB body pos0
    ((fun sp p' => (NProgram.mk sp r.1 none, p')), r.2)) pos

/-! ### ContentStatement: right-stripped offsets and tokenizer location

From the free functions `calculateRightStrippedOffsets` and
`updateTokenizerLocation`, and the visitor method `ContentStatement`. -/

/-- The `\x7blines, columns\x7d` offset record. -/
structure RSOffsets where
  lines : Nat
  columns : Nat
deriving DecidableEq, Repr

/-- `calculateRightStrippedOffsets(original, value)`: for an empty stripped
value, the newline count of the original and column 0; otherwise the newline
count and trailing-line length of `original.split(value)[0]`. -/
def calculateRightStrippedOffsets (original value : List Char) : RSOffsets :=
  if value = [] then
    { lines := (splitChar '\n' original).length - 1, columns := 0 }
  else
    let difference := splitBeforeFirst value original
    let lines := splitChar '\n' difference
    let lineCount := lines.length - 1
    { lines := lineCount, columns := (lines.getD lineCount []).length }

/-- The tokenizer's externally mutable position, plus the chunks of raw text
it has been fed (`tokenizePart` / `flushData` modelled as appending the
chunk). -/
structure TokenizerPos where
  line : Nat
  column : Nat
  emitted : List (List Char)
deriving DecidableEq, Repr

/-- A `ContentStatement` CST node: the unstripped `original` text, the
whitespace-stripped `value`, and its location. -/
structure HContent where
  original : List Char
  value : List Char
  loc : Loc
deriving DecidableEq, Repr

/-- `updateTokenizerLocation(tokenizer, content)`: start from the content's
start position, add the right-stripped offsets (replacing the column when
lines were skipped), and store the result into the tokenizer. -/
def updateTokenizerLocation (tokenizer : TokenizerPos) (content : HContent) : TokenizerPos :=
  let line := content.loc.start.line
  let column := content.loc.start.column
  let offsets := calculateRightStrippedOffsets content.original content.value
  let line := line + offsets.lines
  let column := if offsets.lines ≠ 0 then offsets.columns else column + offsets.columns
  { tokenizer with line := line, column := column }

/-- The visitor method `ContentStatement(content)`: update the tokenizer
location, then hand the stripped value to the tokenizer
(`tokenizePart(content.value); flushData()`). -/
def visitContentStatement (p : TokenizerPos) (content : HContent) : TokenizerPos :=
  let p := updateTokenizerLocation p content
  { p with emitted := p.emitted ++ (content.value :: []) }

/-! ### Tokenizer states and the context-sensitive injection rule

The state names come from `simple-html-tokenizer`'s `TokenizerState`; the
rule is the visitor's private `_injectStatement`. -/

/-- The HTML tokenizer's lexical states (those the translator distinguishes,
plus representatives of the remaining states that all fall into
`_injectStatement`'s `default` branch). -/
inductive TokState where
  | beforeData
  | data
  | tagOpen
  | endTagOpen
  | tagName
  | beforeAttributeName
  | attributeName
  | afterAttributeName
  | beforeAttributeValue
  | attributeValueDoubleQuoted
  | attributeValueSingleQuoted
  | attributeValueUnquoted
  | afterAttributeValueQuoted
  | selfClosingStartTag
  | markupDeclarationOpen
  | commentStart
  | comment
deriving DecidableEq, Repr

/-- A dynamic node being injected (a produced `MustacheStatement` or partial
statement); only its identity and location matter to the injection rule. -/
structure DynNode where
  id : Nat
  loc : Loc
deriving DecidableEq, Repr

/-- One part of an attribute value: a literal text run or a dynamic node. -/
inductive AttrPart where
  | textPart (value : List Char)
  | dynamicPart (node : DynNode)
deriving DecidableEq, Repr

/-- The in-progress attribute (`this.currentAttr`): the pending literal text
run, the accumulated parts, and flags. -/
structure AttrInProgress where
  currentPart : Option (List Char)
  parts : List AttrPart
  isDynamic : Bool
  isQuoted : Bool
deriving DecidableEq, Repr

/-- The slice of parser state that `_injectStatement` reads and writes: the
tokenizer state, the current start tag's modifier list, the current
attribute, the attributes finished so far, and the current element's
children. -/
structure InjectorState where
  tokenizerState : TokState
  modifiers : List DynNode
  currentAttr : AttrInProgress
  finishedAttrs : List AttrInProgress
  children : List DynNode
deriving DecidableEq, Repr

/-- `startTextPart()`: clear the pending literal text run. -/
def startTextPart (st : InjectorState) : InjectorState :=
  { st with currentAttr := { st.currentAttr with currentPart := none } }

/-- `finalizeTextPart()`: if a literal text run is pending, flush it into the
parts sequence and start a fresh one. -/
def finalizeTextPart (st : InjectorState) : InjectorState :=
  match st.currentAttr.currentPart with
  | some text =>
    startTextPart
      { st with currentAttr :=
          { st.currentAttr with parts := st.currentAttr.parts ++ (AttrPart.textPart text :: []) } }
  | none => st

/-- `appendDynamicAttributeValuePart(part)`: flush any pending text, mark the
attribute dynamic, and append the dynamic part. -/
def appendDynamicAttributeValuePart (st : InjectorState) (part : DynNode) : InjectorState :=
  let st := finalizeTextPart st
  { st with currentAttr :=
      { st.currentAttr with
          isDynamic := true
          parts := st.currentAttr.parts ++ (AttrPart.dynamicPart part :: []) } }

/-- Modelled from the spec: `beginAttributeValue(quoted)` is abstract in
`HandlebarsNodeVisitors` (implemented by the tokenizer event handlers outside
src/); per the spec it begins a fresh, empty attribute value with the given
quoting. -/
def beginAttributeValue (st : InjectorState) (quoted : Bool) : InjectorState :=
  { st with currentAttr := { currentPart := none, parts := [], isDynamic := false, isQuoted := quoted } }

/-- Modelled from the spec: `finishAttributeValue()` is abstract in
`HandlebarsNodeVisitors` (implemented outside src/); per the spec it closes
the current attribute value, adding the finished attribute to the in-progress
tag. -/
def finishAttributeValue (st : InjectorState) : InjectorState :=
  { st with finishedAttrs := st.finishedAttrs ++ (st.currentAttr :: []) }

/-- The visitor's private `_injectStatement(node)`: dispatch on the tokenizer
state at the moment of production and splice the node into the HTML
structure. -/
def injectStatement (st : InjectorState) (node : DynNode) : Except SyntaxErr InjectorState :=
  match st.tokenizerState with
  | .tagOpen | .tagName =>
    .error { message := "Cannot use mustaches in an elements tagname", loc := node.loc }
  | .beforeAttributeName =>
    .ok { st with modifiers := st.modifiers ++ (node :: []) }
  | .attributeName | .afterAttributeName =>
    let st := beginAttributeValue st false
    let st := finishAttributeValue st
    .ok { st with
            modifiers := st.modifiers ++ (node :: [])
            tokenizerState := .beforeAttributeName }
  | .afterAttributeValueQuoted =>
    .ok { st with
            modifiers := st.modifiers ++ (node :: [])
            tokenizerState := .beforeAttributeName }
  | .beforeAttributeValue =>
    let st := beginAttributeValue st false
    let st := appendDynamicAttributeValuePart st node
    .ok { st with tokenizerState := .attributeValueUnquoted }
  | .attributeValueDoubleQuoted | .attributeValueSingleQuoted | .attributeValueUnquoted =>
    .ok (appendDynamicAttributeValuePart st node)
  | _ =>
    .ok { st with children := st.children ++ (node :: []) }

/-- The injection rule exactly as the specification's state table states it,
with no row for the after-attribute-value-quoted state, which therefore falls
into the catch-all "any other state: append as a child" row. -/
def injectStatementClaim (st : InjectorState) (node : DynNode) : Except SyntaxErr InjectorState :=
  match st.tokenizerState with
  | .tagOpen | .tagName =>
    .error { message := "Cannot use mustaches in an elements tagname", loc := node.loc }
  | .beforeAttributeName =>
    .ok { st with modifiers := st.modifiers ++ (node :: []) }
  | .attributeName | .afterAttributeName =>
    let st := finishAttributeValue (beginAttributeValue st false)
    .ok { st with
            modifiers := st.modifiers ++ (node :: [])
            tokenizerState := .beforeAttributeName }
  | .beforeAttributeValue =>
    let st := appendDynamicAttributeValuePart (beginAttributeValue st false) node
    .ok { st with tokenizerState := .attributeValueUnquoted }
  | .attributeValueDoubleQuoted | .attributeValueSingleQuoted | .attributeValueUnquoted =>
    .ok (appendDynamicAttributeValuePart st node)
  | _ =>
    .ok { st with children := st.children ++ (node :: []) }

/-- The injection rule as amended: identical to the specification's table plus
the missing row for the after-attribute-value-quoted state (append to the
modifier list and transition back to before-attribute-name). -/
def injectStatementAmended (st : InjectorState) (node : DynNode) : Except SyntaxErr InjectorState :=
  match st.tokenizerState with
  | .tagOpen | .tagName =>
    .error { message := "Cannot use mustaches in an elements tagname", loc := node.loc }
  | .beforeAttributeName =>
    .ok { st with modifiers := st.modifiers ++ (node :: []) }
  | .attributeName | .afterAttributeName =>
    let st := finishAttributeValue (beginAttributeValue st false)
    .ok { st with
            modifiers := st.modifiers ++ (node :: [])
            tokenizerState := .beforeAttributeName }
  | .afterAttributeValueQuoted =>
    .ok { st with
            modifiers := st.modifiers ++ (node :: [])
            tokenizerState := .beforeAttributeName }
  | .beforeAttributeValue =>
    let st := appendDynamicAttributeValuePart (beginAttributeValue st false) node
    .ok { st with tokenizerState := .attributeValueUnquoted }
  | .attributeValueDoubleQuoted | .attributeValueSingleQuoted | .attributeValueUnquoted =>
    .ok (appendDynamicAttributeValuePart st node)
  | _ =>
    .ok { st with children := st.children ++ (node :: []) }

/-! ### Path / head resolution and call-node translation

From the visitor methods `PathExpression`, `SubExpression`, `Hash`, the
literal visitors, `MustacheStatement`, and the free `acceptCallNodes`.
`Parser.source.spanFor` (outside src/) converts a CST location into a source
span; spans are modelled in the CST's own line/column frame, making `spanFor`
the identity. -/

/-- `source.spanFor(loc)` (model: the identity in the shared line/column
frame). -/
def spanFor (loc : Loc) : Loc := loc

/-- `span.collapse('end')`: the zero-width span at the end boundary. -/
def collapseEnd (loc : Loc) : Loc := { start := loc.stop, stop := loc.stop }

/-- A raw CST `PathExpression`: the original source text, the parsed segments,
the named-argument (`@`) flag, and the location. -/
structure HPathRaw where
  original : List Char
  parts : List (List Char)
  data : Bool
  loc : Loc
deriving DecidableEq, Repr

/-- The regular-expression test `original.match(/^this(\..+)?$/)`: either
exactly `this`, or `this.` followed by at least one character none of which is
a line terminator — JavaScript `.` excludes all four line terminators
`\n`, `\r`, U+2028 and U+2029. -/
def matchThisPath (original : List Char) : Bool :=
  original == thisChars ||
    ((String.toList "this.").isPrefixOf original &&
      decide (6 ≤ original.length) &&
      (original.drop 5).all (fun c =>
        !(c == '\n' || c == '\r' || c == '\u2028' || c == '\u2029')))

/-- `ASTv1.PathHead`: `ThisHead`, `AtHead` (name includes the `@` sigil), or
`VarHead`; `VarHead`'s name is optional because the source reads
`parts.shift()!`, which is `undefined` on an empty segment list. -/
inductive PathHead where
  | thisHead (loc : Loc)
  | atHead (name : List Char) (loc : Loc)
  | varHead (name : Option (List Char)) (loc : Loc)
deriving DecidableEq, Repr

/-- Literal values (`ASTv1` and `HBS` literals share this shape). -/
inductive HLit where
  | strVal (v : List Char)
  | boolVal (v : Bool)
  | numVal (v : Int)
  | undefVal
  | nullVal
deriving DecidableEq, Repr

-- Raw CST expressions (`HBS.Expression`): paths, sub-expressions, literals;
-- hashes and hash pairs.
mutual
inductive HExpr where
  | pathRaw (p : HPathRaw)
  | subExpr (path : HExpr) (params : List HExpr) (hash : Option HHash) (loc : Loc)
  | litExpr (value : HLit) (loc : Loc)
inductive HHash where
  | mk (pairs : List HPair) (loc : Loc)
inductive HPair where
  | mk (key : List Char) (value : HExpr) (loc : Loc)
end

/-- The location of a raw CST expression. -/
def HExpr.loc : HExpr → Loc
  | .pathRaw p => p.loc
  | .subExpr _ _ _ l => l
  | .litExpr _ l => l

-- Translated (`ASTv1`) expressions, hashes and hash pairs.  The path variant
-- models `PathExpressionImplV1`.
mutual
inductive AExpr where
  | pathExpr (original : List Char) (head : PathHead) (tail : Option (List (List Char))) (loc : Loc)
  | subExpr (path : AExpr) (params : List AExpr) (hash : AHash) (loc : Loc)
  | litExpr (value : HLit) (loc : Loc)
inductive AHash where
  | mk (pairs : List APair) (loc : Loc)
inductive APair where
  | mk (key : List Char) (value : AExpr) (loc : Loc)
end

/-- The location of a translated expression. -/
def AExpr.loc : AExpr → Loc
  | .pathExpr _ _ _ l => l
  | .subExpr _ _ _ l => l
  | .litExpr _ l => l

/-- The pairs of a translated hash. -/
def AHash.pairs : AHash → List APair
  | .mk ps _ => ps

/-- The location of a translated hash. -/
def AHash.loc : AHash → Loc
  | .mk _ l => l

/-- Modelled from the spec: `new PathExpressionImplV1(original, head, tail,
loc)` (v1/legacy-interop, outside src/) stores the remaining segments as the
path's ordered tail, an empty tail being stored as absent (`null`) rather than
as an empty sequence. -/
def mkPathExpressionImplV1 (original : List Char) (head : PathHead)
    (parts : List (List Char)) (loc : Loc) : AExpr :=
  AExpr.pathExpr original head (if parts.isEmpty then none else some parts) loc

/-- The visitor method `PathExpression(path)`: collapse slash-namespaced
segments, rewrite a leading `this` into `ThisHead` (4-character span),
otherwise resolve an `AtHead` (erroring on a bare `@`) or a `VarHead`, and
build the path from the head and the remaining segments. -/
def pathExpressionV (path : HPathRaw) : Except SyntaxErr AExpr :=
  let parts :=
    if path.original.contains '/' then joinWith '/' path.parts :: []
    else path.parts
  let thisHead := matchThisPath path.original
  if thisHead then
    let pathHead := PathHead.thisHead
      { start := path.loc.start
        stop := { line := path.loc.start.line, column := path.loc.start.column + 4 } }
    .ok (mkPathExpressionImplV1 path.original pathHead parts (spanFor path.loc))
  else if path.data then
    match parts with
    | [] =>
      .error
        { message := "Attempted to parse a path expression, but it was not valid. Paths beginning with @ must start with a-z."
          loc := spanFor path.loc }
    | headSeg :: rest =>
      let pathHead := PathHead.atHead ('@' :: headSeg)
        { start := path.loc.start
          stop := { line := path.loc.start.line, column := path.loc.start.column + headSeg.length + 1 } }
      .ok (mkPathExpressionImplV1 path.original pathHead rest (spanFor path.loc))
  else
    match parts with
    | [] =>
      let pathHead := PathHead.varHead none
        { start := path.loc.start
          stop := { line := path.loc.start.line, column := path.loc.start.column + 0 } }
      .ok (mkPathExpressionImplV1 path.original pathHead [] (spanFor path.loc))
    | headSeg :: rest =>
      let pathHead := PathHead.varHead (some headSeg)
        { start := path.loc.start
          stop := { line := path.loc.start.line, column := path.loc.start.column + headSeg.length } }
      .ok (mkPathExpressionImplV1 path.original pathHead rest (spanFor path.loc))

/-- The result record of `acceptCallNodes`. -/
structure CallParts where
  path : AExpr
  params : List AExpr
  hash : AHash

mutual

/-- The visitor's dispatch `compiler[node.type](node)` /
`compiler.acceptNode(node)` on expressions: paths go to `PathExpression`,
sub-expressions to `SubExpression` (which resolves call parts via
`acceptCallNodes` — inlined here so the recursion is structural; the
standalone `acceptCallNodes` below is proved equal to this inlining — and
builds `b.sexpr`), literals are copied with their value and location. -/
def acceptExpr : HExpr → Except SyntaxErr AExpr
  | .pathRaw p => pathExpressionV p
  | .subExpr path params hash loc => do
    let p ← acceptExpr path
    let ps ← acceptExprList params
    let endLoc :=
      match ps.getLast? with
      | some lastParam => lastParam.loc
      | none => p.loc
    let h ←
      match hash with
      | some hh => acceptHash hh
      | none => pure (AHash.mk [] (collapseEnd (spanFor endLoc)))
    pure (AExpr.subExpr p ps h (spanFor loc))
  | .litExpr v loc => pure (AExpr.litExpr v loc)

/-- The `node.params.map((e) => compiler.acceptNode(e))` loop. -/
def acceptExprList : List HExpr → Except SyntaxErr (List AExpr)
  | [] => pure []
  | e :: rest => do
    let a ← acceptExpr e
    let tl ← acceptExprList rest
    pure (a :: tl)

/-- The visitor method `Hash(hash)`. -/
def acceptHash : HHash → Except SyntaxErr AHash
  | .mk pairs loc => do
    let ps ← acceptPairList pairs
    pure (AHash.mk ps (spanFor loc))

/-- The `for` loop over `hash.pairs` inside `Hash`. -/
def acceptPairList : List HPair → Except SyntaxErr (List APair)
  | [] => pure []
  | .mk key value loc :: rest => do
    let v ← acceptExpr value
    let tl ← acceptPairList rest
    pure (APair.mk key v (spanFor loc) :: tl)

end

/-- The free `acceptCallNodes(compiler, node)`, shared by the mustache, block,
partial-statement and sub-expression visitors: translate the call path and the
positional params; when the CST carries no hash, synthesize an empty hash
whose span is the collapsed end of the last param's span (or of the path's
span when there are no params). -/
def acceptCallNodes (path : HExpr) (params : List HExpr) (hash : Option HHash) :
    Except SyntaxErr CallParts := do
  let p ← acceptExpr path
  let ps ← acceptExprList params
  let endLoc :=
    match ps.getLast? with
    | some lastParam => lastParam.loc
    | none => p.loc
  let h ←
    match hash with
    | some hh => acceptHash hh
    | none => pure (AHash.mk [] (collapseEnd (spanFor endLoc)))
  pure { path := p, params := ps, hash := h }

/-- `StripFlags` on mustaches (field names are Lean keywords, hence
`openFlag` / `closeFlag`). -/
structure HStrip where
  openFlag : Bool
  closeFlag : Bool
deriving DecidableEq, Repr

/-- A raw CST `MustacheStatement`. -/
structure HMustache where
  path : HExpr
  params : List HExpr
  hash : Option HHash
  escaped : Bool
  loc : Loc
  strip : HStrip

/-- A translated `ASTv1.MustacheStatement`, as constructed by `b.mustache`. -/
structure AMustache where
  path : AExpr
  params : List AExpr
  hash : AHash
  trusting : Bool
  loc : Loc
  strip : HStrip

/-- `isHBSLiteral(path)`. -/
def isHBSLiteral : HExpr → Bool
  | .litExpr _ _ => true
  | _ => false

/-- The visitor method `MustacheStatement(rawMustache)`: in the comment state
the raw source is appended to the comment data and no node is produced
(`none`); a bare-literal call target becomes a value-only mustache (no
params, empty hash collapsed to the end of the literal's span); otherwise the
call parts are resolved by `acceptCallNodes`.  The subsequent
`_injectStatement` routing is the separately modelled `injectStatement`. -/
def visitMustacheStatement (tokenizerState : TokState) (rawMustache : HMustache) :
    Except SyntaxErr (Option AMustache) :=
  if tokenizerState = TokState.comment then
    .ok none
  else
    match rawMustache.path with
    | .litExpr v lloc =>
      .ok (some
        { path := AExpr.litExpr v lloc
          params := []
          hash := AHash.mk [] (collapseEnd (spanFor lloc))
          trusting := !rawMustache.escaped
          loc := spanFor rawMustache.loc
          strip := rawMustache.strip })
    | p => do
      let r ← acceptCallNodes p rawMustache.params rawMustache.hash
      pure (some
        { path := r.path
          params := r.params
          hash := r.hash
          trusting := !rawMustache.escaped
          loc := spanFor rawMustache.loc
          strip := rawMustache.strip })

/-- Whether a translated expression is a path whose tail is present but
empty (the shape the specification forbids). -/
def pathTailSomeEmpty : AExpr → Bool
  | .pathExpr _ _ (some []) _ => true
  | _ => false

/-- The builder-side free function `path(path)` (AstBuilder document): split
on dots, classify the head (`@`-prefixed, `this`, or local), and keep the
remaining segments as the tail — `null` when none remain. -/
def pathB (path : List Char) : BPath :=
  let parts := splitChar '.' path
  let first := parts.headD []
  let head : BHead :=
    match path with
    | '@' :: _ => BHead.argRef (first.drop 1)
    | _ => if first = thisChars then BHead.thisRef else BHead.localRef first
  { head := head, tail := if parts.tail ≠ [] then some parts.tail else none }

/-! ### The Program visitor and the element stack

From the visitor method `Program(program)`.  The stack effects of the child
visits themselves (element opens and closes are handled by the tokenizer
event handlers, outside src/) are modelled from the spec as abstract child
operations. -/

/-- An in-progress element on the stack, identified by its tag and
location. -/
structure ElementInfo where
  tag : String
  loc : Loc
deriving DecidableEq, Repr

/-- An entry of `this.elementStack`: the root `Template` body, a `Block`
body, or an in-progress `ElementNode`. -/
inductive StackNode where
  | templateNode (blockParams : List String)
  | blockNode (blockParams : List String) (chained : Bool)
  | elementNode (info : ElementInfo)
deriving DecidableEq, Repr

/-- Modelled from the spec: the effect of visiting one child statement of a
body on the element stack.  Opening an element pushes it; closing an element
pops the matching in-progress element (a closing tag with no open element is
a structural error, raised by the tokenizer event handlers outside src/);
every other child visit leaves the stack unchanged (appending the produced
node to the current top). -/
inductive ChildOp where
  | openElement (info : ElementInfo)
  | closeElement
  | appendNode
deriving DecidableEq, Repr

/-- Modelled from the spec: apply one child visit's stack effect. -/
def applyChildOp (stack : List StackNode) (op : ChildOp) : Except SyntaxErr (List StackNode) :=
  match op with
  | .openElement info => .ok (StackNode.elementNode info :: stack)
  | .closeElement =>
    match stack with
    | StackNode.elementNode _ :: rest => .ok rest
    | _ => .error { message := "Closing tag without an opening tag", loc := nonExistentLoc }
  | .appendNode => .ok stack

/-- The `for (i = 0; i < l; i++) this.acceptNode(program.body[i])` loop, in
terms of the children's stack effects. -/
def runChildren (ops : List ChildOp) (stack : List StackNode) : Except SyntaxErr (List StackNode) :=
  match ops with
  | [] => .ok stack
  | op :: rest => do
    let stack' ← applyChildOp stack op
    runChildren rest stack'

/-- The cast `poppedNode as ASTv1.ElementNode` followed by reading `.tag`: a
non-element stack node has no `tag` property, so the read yields
`undefined`. -/
def tagOfPopped : StackNode → String
  | .elementNode info => info.tag
  | _ => "undefined"

/-- The `.loc` of the popped node under the same cast. -/
def locOfPopped : StackNode → Loc
  | .elementNode info => info.loc
  | _ => nonExistentLoc

/-- The error thrown when the popped node differs from the pushed body node. -/
def unclosedElementError (popped : StackNode) : SyntaxErr :=
  { message := "Unclosed element `" ++ tagOfPopped popped ++ "`", loc := locOfPopped popped }

/-- The body node `Program` constructs: `b.template` when the element stack is
empty (document root), `b.blockItself` otherwise. -/
def programBodyNode (blockParams : List String) (chained : Bool) (stack : List StackNode) : StackNode :=
  if stack.isEmpty then StackNode.templateNode blockParams
  else StackNode.blockNode blockParams chained

/-- The visitor method `Program(program)`: build the body node, push it, run
the child visits (none, for an empty body), pop, and require the popped node
to equal the pushed one — otherwise throw the unclosed-element error naming
the popped node's tag.  (A pop from an empty stack cannot occur: the pushed
node is below everything the children can touch; the `[]` branch mirrors the
crash JavaScript would exhibit there.) -/
def visitProgram (blockParams : List String) (chained : Bool) (ops : List ChildOp)
    (stack : List StackNode) : Except SyntaxErr (StackNode × List StackNode) :=
  let node := programBodyNode blockParams chained stack
  do
    let stack' ← runChildren ops (node :: stack)
    match stack' with
    | poppedNode :: rest =>
      if poppedNode = node then .ok (node, rest)
      else .error (unclosedElementError poppedNode)
    | [] => .error { message := "TypeError: popped node is undefined", loc := nonExistentLoc }

/-- The open-tag simulation: the stack of currently unclosed elements produced
by a sequence of child operations (`none` when a close occurs with no open
element). -/
def simulateTags (ops : List ChildOp) (opened : List ElementInfo) : Option (List ElementInfo) :=
  match ops with
  | [] => some opened
  | .openElement info :: rest => simulateTags rest (info :: opened)
  | .closeElement :: rest =>
    match opened with
    | _ :: opened' => simulateTags rest opened'
    | [] => none
  | .appendNode :: rest => simulateTags rest opened

/-! ### Concrete inputs for counterexamples and witnesses -/

/-- A CST path whose original text is exactly `this.` (it begins with `this.`
but has nothing after the dot, so the grammar's `^this(\..+)?$` test fails). -/
def c4cexPath : HPathRaw :=
  { original := String.toList "this."
    parts := String.toList "x" :: []
    data := false
    loc := { start := { line := 1, column := 2 }, stop := { line := 1, column := 7 } } }

/-- A CST path for `this.foo`. -/
def c4witPath : HPathRaw :=
  { original := String.toList "this.foo"
    parts := String.toList "foo" :: []
    data := false
    loc := { start := { line := 1, column := 2 }, stop := { line := 1, column := 10 } } }

/-- A CST path for the call target `helper`. -/
def c5witPath : HPathRaw :=
  { original := String.toList "helper"
    parts := String.toList "helper" :: []
    data := false
    loc := { start := { line := 1, column := 2 }, stop := { line := 1, column := 8 } } }

/-- A bare `@` CST path (no segments, named-argument flag set). -/
def c8cexPath : HPathRaw :=
  { original := String.toList "@"
    parts := []
    data := true
    loc := { start := { line := 1, column := 2 }, stop := { line := 1, column := 3 } } }

/-- A CST path for `@bar.baz`. -/
def c8witPath : HPathRaw :=
  { original := String.toList "@bar.baz"
    parts := String.toList "bar" :: String.toList "baz" :: []
    data := true
    loc := { start := { line := 1, column := 2 }, stop := { line := 1, column := 10 } } }

/-- A builder hash pair `k=x` (value: the local path `x`). -/
def c3cexPair : BHashPair :=
  { key := String.toList "k"
    value := BExpr.path { head := BHead.localRef (String.toList "x"), tail := none } }

/-- A builder hash pair `q=ab` (value: the local path `ab`). -/
def c10cexPair : BHashPair :=
  { key := String.toList "q"
    value := BExpr.path { head := BHead.localRef (String.toList "ab"), tail := none } }

/-- An injector state sitting in the after-attribute-value-quoted state, as
immediately after parsing `<div a="b" `...`{{m}}`. -/
def c2cexState : InjectorState :=
  { tokenizerState := TokState.afterAttributeValueQuoted
    modifiers := []
    currentAttr := { currentPart := none, parts := [], isDynamic := false, isQuoted := true }
    finishedAttrs := []
    children := [] }

/-- The dynamic node being injected in the counterexample. -/
def c2cexNode : DynNode :=
  { id := 7, loc := { start := { line := 1, column := 11 }, stop := { line := 1, column := 16 } } }

/-- A `ContentStatement` whose value was left-stripped: original `"\n  x"`,
stripped value `"x"`. -/
def c7witContent : HContent :=
  { original := '\n' :: ' ' :: ' ' :: 'x' :: []
    value := 'x' :: []
    loc := { start := { line := 1, column := 0 }, stop := { line := 2, column := 3 } } }

/-- A div element opened and never closed. -/
def c1divInfo : ElementInfo :=
  { tag := "div", loc := { start := { line := 1, column := 0 }, stop := { line := 1, column := 5 } } }

/-- Decidable equality of `Except` results, for concrete evaluations. -/
instance {e a : Type} [DecidableEq e] [DecidableEq a] : DecidableEq (Except e a) := fun x y =>
  match x, y with
  | .ok x, .ok y =>
    if h : x = y then .isTrue (congrArg Except.ok h)
    else .isFalse (fun hc => h (Except.ok.inj hc))
  | .error x, .error y =>
    if h : x = y then .isTrue (congrArg Except.error h)
    else .isFalse (fun hc => h (Except.error.inj hc))
  | .ok _, .error _ => .isFalse (fun hc => Except.noConfusion hc)
  | .error _, .ok _ => .isFalse (fun hc => Except.noConfusion hc)

/-- The segment list `PathExpression` actually works on: the CST segments,
collapsed to a single slash-joined segment when the original text contains a
slash. -/
def effectivePartsV (p : HPathRaw) : List (List Char) :=
  if p.original.contains '/' then joinWith '/' p.parts :: [] else p.parts

/-- Whether a translated expression is a path whose tail contains the given
segment. -/
def astPathTailContains (seg : List Char) : AExpr → Bool
  | .pathExpr _ _ (some segs) _ => segs.contains seg
  | _ => false

/-- The single positional parameter `1` of the witness call `helper 1`. -/
def c5witParams : List HExpr :=
  HExpr.litExpr (.numVal 1)
    { start := { line := 1, column := 9 }, stop := { line := 1, column := 10 } } :: []

/-- The expected translation of the witness call `helper 1` (no hash in the
CST): the empty hash sits at the zero-width point after the parameter. -/
def c5witResult : CallParts :=
  { path := AExpr.pathExpr (String.toList "helper")
      (PathHead.varHead (some (String.toList "helper"))
        { start := { line := 1, column := 2 }, stop := { line := 1, column := 8 } })
      none c5witPath.loc
    params := AExpr.litExpr (.numVal 1)
      { start := { line := 1, column := 9 }, stop := { line := 1, column := 10 } } :: []
    hash := AHash.mk []
      { start := { line := 1, column := 10 }, stop := { line := 1, column := 10 } } }

/-- A witness mustache `\x7b\x7b"a string"\x7d\x7d` whose call target is a bare string
literal. -/
def c6witMustache : HMustache :=
  { path := HExpr.litExpr (.strVal (String.toList "a string"))
      { start := { line := 1, column := 2 }, stop := { line := 1, column := 12 } }
    params := []
    hash := none
    escaped := true
    loc := { start := { line := 1, column := 0 }, stop := { line := 1, column := 14 } }
    strip := { openFlag := false, closeFlag := false } }

/-- A plain `foo` CST path for the tail-absence witness. -/
def c9witPath : HPathRaw :=
  { original := String.toList "foo"
    parts := String.toList "foo" :: []
    data := false
    loc := { start := { line := 1, column := 2 }, stop := { line := 1, column := 5 } } }

/-! ### Helper lemmas -/

theorem exceptBind_ok {e a b : Type} (x : a) (f : a → Except e b) :
    (Except.ok x >>= f) = f x := rfl

theorem exceptBind_err {e a b : Type} (err : e) (f : a → Except e b) :
    ((Except.error err : Except e a) >>= f) = Except.error err := rfl

theorem exceptMap_ok {e a b : Type} (f : a → b) (x : a) :
    (f <$> (Except.ok x : Except e a)) = Except.ok (f x) := rfl

theorem exceptMap_err {e a b : Type} (f : a → b) (err : e) :
    (f <$> (Except.error err : Except e a)) = Except.error err := rfl

theorem le_step {a b c : Nat} (h1 : a ≤ b) (h2 : b ≤ c) : a ≤ c := Nat.le_trans h1 h2

theorem splitChar_ne_nil (c : Char) (s : List Char) : splitChar c s ≠ [] := by
  cases s with
  | nil => simp [splitChar]
  | cons x xs =>
    rw [splitChar]
    rcases h : splitChar c xs with _ | ⟨y, ys⟩
    · simp
    · dsimp only
      split <;> simp

theorem splitChar_length (c : Char) (s : List Char) :
    (splitChar c s).length = s.count c + 1 := by
  induction s with
  | nil => simp [splitChar]
  | cons x xs ih =>
    rw [splitChar]
    rcases h : splitChar c xs with _ | ⟨y, ys⟩
    · exact absurd h (splitChar_ne_nil c xs)
    · rw [h] at ih
      by_cases hx : x = c <;>
        simp [hx, List.count_cons] at ih ⊢ <;> omega

theorem getD_last_eq_getLastD {a : Type} (l : List a) (d : a) :
    l.getD (l.length - 1) d = l.getLastD d := by
  rw [List.getD_eq_getElem?_getD, List.getLastD_eq_getLast?, List.getLast?_eq_getElem?]

theorem splitBeforeFirst_occurrence (sep s : List Char)
    (hocc : ∃ pre suf, s = pre ++ sep ++ suf) :
    ∃ suf, s = splitBeforeFirst sep s ++ sep ++ suf := by
  induction s with
  | nil =>
    obtain ⟨pre, suf, hps⟩ := hocc
    have h1 := List.append_eq_nil.mp hps.symm
    have h2 := List.append_eq_nil.mp h1.1
    refine ⟨[], ?_⟩
    simp [splitBeforeFirst, h2.2]
  | cons x xs ih =>
    rw [splitBeforeFirst]
    split
    · rename_i hpre
      rcases List.isPrefixOf_iff_prefix.mp hpre with ⟨suf, hsuf⟩
      exact ⟨suf, by simpa using hsuf.symm⟩
    · rename_i hpre
      obtain ⟨pre, suf, hps⟩ := hocc
      cases pre with
      | nil =>
        exfalso
        apply hpre
        apply List.isPrefixOf_iff_prefix.mpr
        exact ⟨suf, by simpa using hps.symm⟩
      | cons p ps =>
        have hx : p = x := by
          have := congrArg (fun l => l.head?) hps
          simpa using this.symm
        have hxs : xs = ps ++ sep ++ suf := by
          have := congrArg List.tail hps
          simpa using this
        obtain ⟨suf', hsuf'⟩ := ih ⟨ps, suf, hxs⟩
        exact ⟨suf', by simp [← hsuf']⟩

theorem splitBeforeFirst_minimal (sep s : List Char) :
    ∀ pre suf, s = pre ++ sep ++ suf → (splitBeforeFirst sep s).length ≤ pre.length := by
  induction s with
  | nil => intro pre suf _; simp [splitBeforeFirst]
  | cons x xs ih =>
    intro pre suf hps
    rw [splitBeforeFirst]
    split
    · simp
    · rename_i hpre
      cases pre with
      | nil =>
        exfalso
        apply hpre
        apply List.isPrefixOf_iff_prefix.mpr
        exact ⟨suf, by simpa using hps.symm⟩
      | cons p ps =>
        have hxs : xs = ps ++ sep ++ suf := by
          have := congrArg List.tail hps
          simpa using this
        simpa using Nat.succ_le_succ (ih ps suf hxs)

theorem mem_joinWith_of_cons_cons (x y : List Char) (rest : List (List Char)) :
    '/' ∈ joinWith '/' (x :: y :: rest) := by
  have hj : joinWith '/' (x :: y :: rest) = x ++ '/' :: joinWith '/' (y :: rest) := rfl
  rw [hj]
  exact List.mem_append_right x (List.mem_cons_self _ _)

theorem joinWith_slash_ne_this (xs : List (List Char)) (hx : thisChars ∉ xs) :
    joinWith '/' xs ≠ thisChars := by
  match xs with
  | [] => simp [joinWith, thisChars]
  | x :: [] =>
    rw [joinWith]
    intro hc
    exact hx (hc ▸ List.mem_cons_self x [])
  | x :: y :: rest =>
    intro hc
    have hmem : '/' ∈ thisChars := hc ▸ mem_joinWith_of_cons_cons x y rest
    simp [thisChars] at hmem

/-! ### Claim theorems -/

/-- Claim C1: the `Program` visitor pushes the body node before its children
are visited (by construction: `runChildren` acts on `node :: stack`), pops it
afterwards (or immediately for an empty body, `ops = []`), and requires the
popped node to equal the pushed one; when the children leave elements
unclosed, the popped node is the most recently opened unclosed element and a
structural syntax error naming its tag is raised. -/
theorem c1_program_balance (blockParams : List String) (chained : Bool)
    (ops : List ChildOp) (stack : List StackNode) :
    (simulateTags ops [] = some [] →
      visitProgram blockParams chained ops stack =
        .ok (programBodyNode blockParams chained stack, stack)) ∧
    (∀ info rest, simulateTags ops [] = some (info :: rest) →
      visitProgram blockParams chained ops stack =
        .error (unclosedElementError (StackNode.elementNode info)) ∧
      (unclosedElementError (StackNode.elementNode info)).message =
        "Unclosed element `" ++ info.tag ++ "`") := by
  have hbase : ∀ tags tags', simulateTags ops tags = some tags' →
      runChildren ops (tags.map StackNode.elementNode ++
          (programBodyNode blockParams chained stack :: stack)) =
        .ok (tags'.map StackNode.elementNode ++
          (programBodyNode blockParams chained stack :: stack)) := by
    induction ops with
    | nil =>
      intro tags tags' h
      simp only [simulateTags, Option.some.injEq] at h
      cases h
      rfl
    | cons op rest ih =>
      intro tags tags' h
      cases op with
      | openElement info =>
        simp only [simulateTags] at h
        have := ih (info :: tags) tags' h
        simpa [runChildren, applyChildOp, exceptBind_ok] using this
      | closeElement =>
        cases tags with
        | nil => simp [simulateTags] at h
        | cons t ts =>
          simp only [simulateTags] at h
          have := ih ts tags' h
          simpa [runChildren, applyChildOp, exceptBind_ok] using this
      | appendNode =>
        simp only [simulateTags] at h
        have := ih tags tags' h
        simpa [runChildren, applyChildOp, exceptBind_ok] using this
  have hnotelem : ∀ info,
      programBodyNode blockParams chained stack ≠ StackNode.elementNode info := by
    intro info
    unfold programBodyNode
    split <;> simp
  constructor
  · intro h
    have hr := hbase [] [] h
    simp only [List.map_nil, List.nil_append] at hr
    simp only [visitProgram, hr, exceptBind_ok]
    simp
  · intro info rest h
    have hr := hbase [] (info :: rest) h
    simp only [List.map_nil, List.nil_append, List.map_cons, List.cons_append] at hr
    refine ⟨?_, rfl⟩
    have hne : StackNode.elementNode info ≠ programBodyNode blockParams chained stack :=
      fun hc => hnotelem info hc.symm
    simp only [visitProgram, hr, exceptBind_ok]
    simp [hne]

/-- Claim C1 witness: an empty body at the top level yields the template node
back with the stack restored, and a body that opens `<div>` without closing it
raises the unclosed-element error naming `div`. -/
theorem c1_witness :
    visitProgram [] false [] [] = .ok (StackNode.templateNode [], []) ∧
    visitProgram [] false (ChildOp.openElement c1divInfo :: []) [] =
      .error (unclosedElementError (StackNode.elementNode c1divInfo)) ∧
    (unclosedElementError (StackNode.elementNode c1divInfo)).message =
      "Unclosed element `div`" := by
  refine ⟨(c1_program_balance [] false [] []).1 rfl, ?_, by decide⟩
  exact (((c1_program_balance [] false (ChildOp.openElement c1divInfo :: []) []).2
    c1divInfo [] rfl)).1

/-- Claim C2 counterexample: in the after-attribute-value-quoted state (as
immediately after parsing `<div a="b" \x7b\x7bm\x7d\x7d`), the code appends the node to
the current tag's modifier list and transitions the tokenizer back to
before-attribute-name, whereas the claim's rule — which assigns that state to
"every other state" — appends it as a child of the current element. -/
theorem c2_counterexample :
    injectStatement c2cexState c2cexNode ≠ injectStatementClaim c2cexState c2cexNode ∧
    injectStatement c2cexState c2cexNode =
      .ok { c2cexState with
              modifiers := c2cexNode :: []
              tokenizerState := TokState.beforeAttributeName } ∧
    injectStatementClaim c2cexState c2cexNode =
      .ok { c2cexState with children := c2cexNode :: [] } := by
  refine ⟨by decide, rfl, rfl⟩

/-- Claim C2 (amended): the destination of an injected dynamic node is given
by the specification's state table extended with one more row — in the
after-attribute-value-quoted state the node is appended to the modifier list
and the tokenizer transitions back to before-attribute-name. -/
theorem c2_injection_rule (st : InjectorState) (node : DynNode) :
    injectStatement st node = injectStatementAmended st node := by
  cases h : st.tokenizerState <;>
    simp [injectStatement, injectStatementAmended, h]

/-- Claim C3: the span-containment invariant fails in the AST Builder's
`hashPair`: building the pair `k=x` at cursor 0 yields a pair span collapsed
to `\x7b0, 0\x7d` while the pair's value child spans `\x7b0, 1\x7d`, which is not
contained in it (the value is consumed only after the pair's span is fixed). -/
theorem c3_hashpair_span_violation :
    (hashPairB c3cexPair 0).1.span = { start := 0, stop := 0 } ∧
    (hashPairB c3cexPair 0).1.value.span = { start := 0, stop := 1 } ∧
    ¬ spanWithin (hashPairB c3cexPair 0).1.span (hashPairB c3cexPair 0).1.value.span := by
  refine ⟨rfl, rfl, by decide⟩

/-- Claim C4 counterexample: the path whose original text is exactly `this.`
begins with `this.`, yet the grammar test `^this(\..+)?$` rejects it (the
group needs at least one character after the dot), so the resolver produces a
`VarHead`, not the claimed `ThisHead`. -/
theorem c4_counterexample :
    (String.toList "this.").isPrefixOf c4cexPath.original = true ∧
    pathExpressionV c4cexPath =
      .ok (AExpr.pathExpr c4cexPath.original
        (PathHead.varHead (some (String.toList "x"))
          { start := { line := 1, column := 2 }, stop := { line := 1, column := 3 } })
        none c4cexPath.loc) := ⟨by decide, rfl⟩

/-- Claim C4 (amended): for a path whose original text is exactly `this`, or
`this.` followed by at least one character that is not a line terminator
(`\n`, `\r`, U+2028, U+2029), the resolved
head is `ThisHead` with a span exactly 4 characters long starting at the
path's start; the segments are passed through unchanged, so — the upstream
parser having already dropped the leading `this` segment (its contract also
keeps `this` out of the remaining segments) — no `this` segment appears in
the resulting tail. -/
theorem c4_this_head (p : HPathRaw)
    (h : p.original = thisChars ∨
      ∃ rest, rest ≠ [] ∧
        (∀ c ∈ rest, c ≠ '\n' ∧ c ≠ '\r' ∧ c ≠ '\u2028' ∧ c ≠ '\u2029') ∧
        p.original = String.toList "this." ++ rest)
    (hparts : thisChars ∉ p.parts) :
    pathExpressionV p =
      .ok (AExpr.pathExpr p.original
        (PathHead.thisHead
          { start := p.loc.start
            stop := { line := p.loc.start.line, column := p.loc.start.column + 4 } })
        (if (effectivePartsV p).isEmpty then none else some (effectivePartsV p)) p.loc) ∧
    astPathTailContains thisChars
      (AExpr.pathExpr p.original
        (PathHead.thisHead
          { start := p.loc.start
            stop := { line := p.loc.start.line, column := p.loc.start.column + 4 } })
        (if (effectivePartsV p).isEmpty then none else some (effectivePartsV p)) p.loc) = false := by
  have hmatch : matchThisPath p.original = true := by
    rcases h with h | ⟨rest, hne, hnl, heq⟩
    · simp [matchThisPath, h]
    · rw [matchThisPath, heq]
      have hpre : ((String.toList "this.").isPrefixOf (String.toList "this." ++ rest)) = true := by
        rw [List.isPrefixOf_iff_prefix]
        exact List.prefix_append _ _
      have hlen : 6 ≤ (String.toList "this." ++ rest).length := by
        rcases rest with _ | ⟨r, rs⟩
        · exact absurd rfl hne
        · simp [List.length_append]
      have hdrop : (String.toList "this." ++ rest).drop 5 = rest := by
        have h5 : (String.toList "this.").length = 5 := by decide
        rw [← h5, List.drop_left]
      simp only [Bool.or_eq_true, Bool.and_eq_true, decide_eq_true_eq, List.all_eq_true, hdrop]
      refine Or.inr ⟨⟨hpre, hlen⟩, ?_⟩
      intro c hc
      rcases hnl c hc with ⟨h1, h2, h3, h4⟩
      simp [h1, h2, h3, h4]
  have hthis : thisChars ∉ effectivePartsV p := by
    unfold effectivePartsV
    split
    · intro hc
      have hj := List.mem_singleton.mp hc
      exact joinWith_slash_ne_this p.parts hparts hj.symm
    · exact hparts
  constructor
  · simp only [pathExpressionV, hmatch, if_true, mkPathExpressionImplV1, spanFor]
    rfl
  · by_cases he : (effectivePartsV p).isEmpty = true
    · simp [astPathTailContains, he]
    · have hgoal : astPathTailContains thisChars
          (AExpr.pathExpr p.original
            (PathHead.thisHead
              { start := p.loc.start
                stop := { line := p.loc.start.line, column := p.loc.start.column + 4 } })
            (some (effectivePartsV p)) p.loc) =
          (effectivePartsV p).contains thisChars := rfl
      rw [if_neg he, hgoal]
      simp only [List.contains, List.elem_eq_mem, decide_eq_false_iff_not]
      exact hthis

/-- Claim C4 witness: `this.foo` resolves to a `ThisHead` spanning columns
2–6 (4 characters), with the tail `[foo]` free of `this`. -/
theorem c4_witness :
    pathExpressionV c4witPath =
      .ok (AExpr.pathExpr c4witPath.original
        (PathHead.thisHead
          { start := { line := 1, column := 2 }, stop := { line := 1, column := 6 } })
        (some (String.toList "foo" :: [])) c4witPath.loc) ∧
    astPathTailContains thisChars
      (AExpr.pathExpr c4witPath.original
        (PathHead.thisHead
          { start := { line := 1, column := 2 }, stop := { line := 1, column := 6 } })
        (some (String.toList "foo" :: [])) c4witPath.loc) = false := by
  have h := c4_this_head c4witPath
    (Or.inr ⟨String.toList "foo", by decide, by decide, by decide⟩) (by decide)
  exact ⟨h.1, h.2⟩

/-- Claim C8: for a path written with the named-argument sigil (and not
subject to the `this`-rewrite or the slash-collapse), a missing first segment
(a bare `@`) raises a structural syntax error; otherwise the head is an
`AtHead` named `@` + first segment whose span is the first segment's length
plus 1 for the sigil. -/
theorem c8_at_head (p : HPathRaw)
    (hdata : p.data = true)
    (hthis : matchThisPath p.original = false)
    (hslash : p.original.contains '/' = false) :
    (p.parts = [] →
      pathExpressionV p =
        .error { message := "Attempted to parse a path expression, but it was not valid. Paths beginning with @ must start with a-z."
                 loc := p.loc }) ∧
    (∀ headSeg rest, p.parts = headSeg :: rest →
      pathExpressionV p =
        .ok (AExpr.pathExpr p.original
          (PathHead.atHead ('@' :: headSeg)
            { start := p.loc.start
              stop := { line := p.loc.start.line
                        column := p.loc.start.column + headSeg.length + 1 } })
          (if rest.isEmpty then none else some rest) p.loc)) := by
  have hslash' : ¬ ('/' ∈ p.original) := by
    have h2 := hslash
    simp only [List.contains, List.elem_eq_mem, decide_eq_false_iff_not] at h2
    exact h2
  constructor
  · intro hparts
    simp [pathExpressionV, hthis, hslash', hdata, hparts, spanFor]
  · intro headSeg rest hparts
    simp [pathExpressionV, hthis, hslash', hdata, hparts, spanFor, mkPathExpressionImplV1]

/-- Claim C8 witness: a bare `\x7b\x7b@\x7d\x7d` path raises the structural error, and
`@bar.baz` resolves to `AtHead` named `@bar` with a 4-character span
(3 for `bar` plus 1 for the sigil) and tail `[baz]`. -/
theorem c8_witness :
    pathExpressionV c8cexPath =
      .error { message := "Attempted to parse a path expression, but it was not valid. Paths beginning with @ must start with a-z."
               loc := c8cexPath.loc } ∧
    pathExpressionV c8witPath =
      .ok (AExpr.pathExpr c8witPath.original
        (PathHead.atHead ('@' :: String.toList "bar")
          { start := { line := 1, column := 2 }, stop := { line := 1, column := 6 } })
        (some (String.toList "baz" :: [])) c8witPath.loc) := by
  constructor
  · exact (c8_at_head c8cexPath rfl (by decide) (by decide)).1 rfl
  · exact (c8_at_head c8witPath rfl (by decide) (by decide)).2
      (String.toList "bar") (String.toList "baz" :: []) rfl

/-- Claim C9: the segments remaining after the head become the path's ordered
tail, and an empty tail is stored as absent (`null`), never as an empty
sequence: in the builder-side `path` function the tail is `null` exactly when
no segments follow the first, and every path the visitor's `PathExpression`
produces (through `PathExpressionImplV1`) has either an absent tail or a
non-empty one. -/
theorem c9_empty_tail_absent :
    (∀ s : List Char, (pathB s).tail ≠ some ([] : List (List Char))) ∧
    (∀ s : List Char, (splitChar '.' s).tail = [] → (pathB s).tail = none) ∧
    (∀ s : List Char, (splitChar '.' s).tail ≠ [] →
      (pathB s).tail = some ((splitChar '.' s).tail)) ∧
    (∀ (p : HPathRaw) (r : AExpr), pathExpressionV p = .ok r →
      pathTailSomeEmpty r = false) := by
  refine ⟨?_, ?_, ?_, ?_⟩
  · intro s
    by_cases hne : (splitChar '.' s).tail = []
    · simp [pathB, hne]
    · simp [pathB, hne]
  · intro s hnil
    simp [pathB, hnil]
  · intro s hne
    simp [pathB, hne]
  · intro p r h
    have hmk : ∀ original head parts loc,
        pathTailSomeEmpty (mkPathExpressionImplV1 original head parts loc) = false := by
      intro original head parts loc
      unfold mkPathExpressionImplV1
      split
      · rfl
      · rename_i hne
        have : parts ≠ [] := by
          intro hc
          simp [hc] at hne
        simp only [pathTailSomeEmpty]
        split
        · rename_i heq
          injection heq with h1 h2 h3 h4
          exact absurd (Option.some.inj h3) this
        · rfl
    simp only [pathExpressionV] at h
    split at h
    · cases h
      apply hmk
    · split at h
      · split at h
        · exact absurd h (by simp)
        · cases h
          apply hmk
      · split at h
        · cases h
          apply hmk
        · cases h
          apply hmk

/-- Claim C9 witness: the builder's `path` gives `a.b` the tail `[b]` and `a`
an absent tail, and the visitor's translation of the path `foo` has no
present-but-empty tail. -/
theorem c9_witness :
    (pathB (String.toList "a.b")).tail = some (String.toList "b" :: []) ∧
    (pathB (String.toList "a")).tail = none ∧
    pathTailSomeEmpty
      (AExpr.pathExpr c9witPath.original
        (PathHead.varHead (some (String.toList "foo"))
          { start := { line := 1, column := 2 }, stop := { line := 1, column := 5 } })
        none c9witPath.loc) = false := by
  refine ⟨?_, ?_, ?_⟩
  · exact c9_empty_tail_absent.2.2.1 (String.toList "a.b") (by decide)
  · exact c9_empty_tail_absent.2.1 (String.toList "a") (by decide)
  · exact c9_empty_tail_absent.2.2.2 c9witPath
      (AExpr.pathExpr c9witPath.original
        (PathHead.varHead (some (String.toList "foo"))
          { start := { line := 1, column := 2 }, stop := { line := 1, column := 5 } })
        none c9witPath.loc) rfl

theorem pathExpressionV_loc (p : HPathRaw) (a : AExpr) (h : pathExpressionV p = .ok a) :
    a.loc = p.loc := by
  simp only [pathExpressionV, mkPathExpressionImplV1, spanFor] at h
  split at h
  · cases h
    rfl
  · split at h
    · split at h
      · exact absurd h (by simp)
      · cases h
        rfl
    · split at h
      · cases h
        rfl
      · cases h
        rfl

theorem acceptExpr_loc (e : HExpr) (a : AExpr) (h : acceptExpr e = .ok a) :
    a.loc = e.loc := by
  cases e with
  | pathRaw p =>
    rw [acceptExpr] at h
    exact pathExpressionV_loc p a h
  | litExpr v loc =>
    rw [acceptExpr] at h
    simp only [pure, Except.pure, Except.ok.injEq] at h
    subst h
    rfl
  | subExpr path params hash loc =>
    rw [acceptExpr] at h
    cases hp : acceptExpr path <;> rw [hp] at h
    case error => simp only [exceptBind_err, reduceCtorEq] at h
    case ok p =>
      rw [exceptBind_ok] at h
      cases hps : acceptExprList params <;> rw [hps] at h
      case error => simp only [exceptBind_err, reduceCtorEq] at h
      case ok ps =>
        rw [exceptBind_ok] at h
        cases hash with
        | none =>
          simp only [exceptBind_ok, pure, Except.pure, Except.ok.injEq] at h
          subst h
          rfl
        | some hh =>
          simp only [exceptBind_ok] at h
          cases hh2 : acceptHash hh <;> rw [hh2] at h
          case error => simp only [exceptBind_err, exceptMap_err, reduceCtorEq] at h
          case ok hv =>
            simp only [exceptBind_ok, exceptMap_ok, pure, Except.pure, Except.ok.injEq] at h
            subst h
            rfl

theorem acceptExprList_locs (es : List HExpr) (ps : List AExpr)
    (h : acceptExprList es = .ok ps) : ps.map AExpr.loc = es.map HExpr.loc := by
  induction es generalizing ps with
  | nil =>
    rw [acceptExprList] at h
    simp only [pure, Except.pure, Except.ok.injEq] at h
    subst h
    rfl
  | cons e rest ih =>
    rw [acceptExprList] at h
    cases ha : acceptExpr e <;> rw [ha] at h
    case error => simp only [exceptBind_err, reduceCtorEq] at h
    case ok a =>
      rw [exceptBind_ok] at h
      cases hr : acceptExprList rest <;> rw [hr] at h
      case error => simp only [exceptBind_err, reduceCtorEq] at h
      case ok tl =>
        simp only [exceptBind_ok, pure, Except.pure, Except.ok.injEq] at h
        subst h
        simp only [List.map_cons]
        rw [acceptExpr_loc e a ha, ih tl hr]

/-- Claim C5: for every call node whose CST carries no hash, the resolved hash
has zero pairs, and its span is the zero-width point at the end of (that is,
immediately after) the span of the last positional parameter — or of the call
path when there are no positional parameters. -/
theorem c5_empty_hash_span (path : HExpr) (params : List HExpr) (r : CallParts)
    (h : acceptCallNodes path params none = .ok r) :
    r.hash.pairs = [] ∧
    r.hash.loc =
      { start := (match params.getLast? with
          | some lastParam => lastParam.loc
          | none => path.loc).stop
        stop := (match params.getLast? with
          | some lastParam => lastParam.loc
          | none => path.loc).stop } := by
  rw [acceptCallNodes] at h
  cases hp : acceptExpr path <;> rw [hp] at h
  case error => simp only [exceptBind_err, reduceCtorEq] at h
  case ok p =>
    rw [exceptBind_ok] at h
    cases hps : acceptExprList params <;> rw [hps] at h
    case error => simp only [exceptBind_err, reduceCtorEq] at h
    case ok ps =>
      simp only [exceptBind_ok, pure, Except.pure, Except.ok.injEq] at h
      subst h
      have hmap := acceptExprList_locs params ps hps
      have hlast : (ps.getLast?).map AExpr.loc = (params.getLast?).map HExpr.loc := by
        rw [← List.getLast?_map, ← List.getLast?_map, hmap]
      refine ⟨rfl, ?_⟩
      simp only [AHash.loc, collapseEnd, spanFor]
      cases hpl : params.getLast? with
      | none =>
        have hnil : ps = [] := by
          have hlen := congrArg List.length hmap
          simp only [List.length_map] at hlen
          have : params = [] := List.getLast?_eq_none_iff.mp hpl
          simp [this] at hlen
          exact hlen
        subst hnil
        simp only [List.getLast?_nil]
        rw [acceptExpr_loc path p hp]
      | some lastParam =>
        rw [hpl] at hlast
        cases hps' : ps.getLast? with
        | none =>
          rw [hps'] at hlast
          simp at hlast
        | some lastP =>
          rw [hps'] at hlast
          simp only [Option.map_some'] at hlast
          have : lastP.loc = lastParam.loc := Option.some.inj hlast
          simp [this]

/-- Claim C5 witness: translating `helper 1` (no hash in the CST) produces
the empty hash at the zero-width point `(1,10)`–`(1,10)`, immediately after
the parameter's span. -/
theorem c5_witness :
    acceptCallNodes (HExpr.pathRaw c5witPath) c5witParams none = .ok c5witResult ∧
    c5witResult.hash.pairs = [] ∧
    c5witResult.hash.loc =
      { start := { line := 1, column := 10 }, stop := { line := 1, column := 10 } } := by
  have heq : acceptCallNodes (HExpr.pathRaw c5witPath) c5witParams none = .ok c5witResult := rfl
  have h := c5_empty_hash_span (HExpr.pathRaw c5witPath) c5witParams c5witResult heq
  exact ⟨heq, h.1, h.2⟩

/-- Claim C6: a mustache whose call target is a bare literal produces the
value-only mustache form (the specification's `ContentMustache`): the literal
is carried as the node's value (its call position), there are no params, and
the hash is empty and zero-width, collapsed to the end of the call's span. -/
theorem c6_literal_mustache (ts : TokState) (m : HMustache) (v : HLit) (lloc : Loc)
    (hts : ts ≠ TokState.comment)
    (hlit : m.path = HExpr.litExpr v lloc) :
    visitMustacheStatement ts m =
      .ok (some
        { path := AExpr.litExpr v lloc
          params := []
          hash := AHash.mk [] { start := lloc.stop, stop := lloc.stop }
          trusting := !m.escaped
          loc := m.loc
          strip := m.strip }) := by
  simp [visitMustacheStatement, hts, hlit, collapseEnd, spanFor]

/-- Claim C6 witness: `\x7b\x7b"a string"\x7d\x7d` in the data state produces the
value-only mustache carrying the string literal, with the empty hash collapsed
to `(1,12)`, the end of the literal's span. -/
theorem c6_witness :
    visitMustacheStatement TokState.data c6witMustache =
      .ok (some
        { path := AExpr.litExpr (.strVal (String.toList "a string"))
            { start := { line := 1, column := 2 }, stop := { line := 1, column := 12 } }
          params := []
          hash := AHash.mk []
            { start := { line := 1, column := 12 }, stop := { line := 1, column := 12 } }
          trusting := false
          loc := c6witMustache.loc
          strip := c6witMustache.strip }) := by
  exact c6_literal_mustache TokState.data c6witMustache
    (.strVal (String.toList "a string"))
    { start := { line := 1, column := 2 }, stop := { line := 1, column := 12 } }
    (by decide) rfl

/-- Claim C7: the right-stripped offset of a `ContentStatement` is the newline
count of the whole original when the stripped value is empty (column 0), and
otherwise the newline count and last-line length of the prefix of the original
before the first occurrence of the stripped value; the tokenizer — positioned
at the content's start — has its line advanced by the line offset and its
column replaced by (when lines advanced) or advanced by the column offset,
before the stripped text is handed to the tokenizer. -/
theorem c7_right_stripped_offsets (tokenizer : TokenizerPos) (content : HContent)
    (hline : tokenizer.line = content.loc.start.line)
    (hcol : tokenizer.column = content.loc.start.column) :
    (content.value = [] →
      calculateRightStrippedOffsets content.original content.value =
        { lines := countNewlines content.original, columns := 0 }) ∧
    (content.value ≠ [] →
      (∃ pre suf, content.original = pre ++ content.value ++ suf) →
      (∃ suf, content.original =
        splitBeforeFirst content.value content.original ++ content.value ++ suf) ∧
      calculateRightStrippedOffsets content.original content.value =
        { lines := countNewlines (splitBeforeFirst content.value content.original)
          columns := lastLineLength (splitBeforeFirst content.value content.original) }) ∧
    visitContentStatement tokenizer content =
      { line := tokenizer.line +
          (calculateRightStrippedOffsets content.original content.value).lines
        column :=
          if (calculateRightStrippedOffsets content.original content.value).lines ≠ 0 then
            (calculateRightStrippedOffsets content.original content.value).columns
          else
            tokenizer.column +
              (calculateRightStrippedOffsets content.original content.value).columns
        emitted := tokenizer.emitted ++ (content.value :: []) } := by
  refine ⟨?_, ?_, ?_⟩
  · intro hval
    simp only [calculateRightStrippedOffsets, hval, if_pos]
    rw [splitChar_length]
    simp [countNewlines]
  · intro hval hocc
    refine ⟨splitBeforeFirst_occurrence content.value content.original hocc, ?_⟩
    unfold calculateRightStrippedOffsets
    rw [if_neg hval]
    simp only [RSOffsets.mk.injEq]
    constructor
    · rw [splitChar_length]
      simp [countNewlines]
    · rw [getD_last_eq_getLastD]
      rfl
  · cases tokenizer with
    | mk tline tcol temitted =>
      simp only at hline hcol
      subst hline
      subst hcol
      simp [visitContentStatement, updateTokenizerLocation]

/-- Claim C7 witness: for the left-stripped content with original `"\n  x"`
and stripped value `"x"`, the offsets are one line and column 2, and a
tokenizer synchronized at line 1, column 0 is moved to line 2, column 2
before `"x"` is emitted. -/
theorem c7_witness :
    calculateRightStrippedOffsets c7witContent.original c7witContent.value =
      { lines := 1, columns := 2 } ∧
    visitContentStatement { line := 1, column := 0, emitted := [] } c7witContent =
      { line := 2, column := 2, emitted := ('x' :: []) :: [] } := by
  have h := c7_right_stripped_offsets
    { line := 1, column := 0, emitted := [] } c7witContent rfl rfl
  refine ⟨by decide, ?_⟩
  rw [h.2.2]
  decide

/-! ### Builder cursor monotonicity and span lemmas (claim C10) -/

theorem consumeB_mono (chars : List Char) (pos : Nat) : pos ≤ (consumeB chars pos).2 :=
  Nat.le_add_right _ _

theorem varB_mono (item : BHead) (pos : Nat) : pos ≤ (varB item pos).2 := by
  cases item <;> simp only [varB, spannedB, consumeB] <;> omega

theorem segmentB_mono (item : List Char) (pos : Nat) : pos ≤ (segmentB item pos).2 := by
  simp only [segmentB, spannedB, consumeB]
  omega

theorem segmentsListB_mono (items : List (List Char)) (pos : Nat) :
    pos ≤ (segmentsListB items pos).2 := by
  induction items generalizing pos with
  | nil => simp [segmentsListB]
  | cons item rest ih =>
    simp only [segmentsListB]
    exact le_step (segmentB_mono item pos) (ih _)

theorem segmentsB_mono (items : Option (List (List Char))) (pos : Nat) :
    pos ≤ (segmentsB items pos).2 := by
  cases items with
  | none => simp [segmentsB]
  | some items =>
    simp only [segmentsB]
    exact segmentsListB_mono items pos

theorem pathVB_mono (p : BPath) (pos : Nat) : pos ≤ (pathVB p pos).2 := by
  simp only [pathVB, spannedB]
  exact le_step (varB_mono p.head pos) (segmentsB_mono p.tail _)

theorem exprB_mono (e : BExpr) (pos : Nat) : pos ≤ (exprB e pos).2 := by
  cases e with
  | lit v => cases v <;> simp [exprB, spannedB, consumeB]
  | path p =>
    simp only [exprB]
    exact pathVB_mono p pos

theorem exprsB_mono (params : List BExpr) (pos : Nat) : pos ≤ (exprsB params pos).2 := by
  induction params generalizing pos with
  | nil => simp [exprsB]
  | cons p rest ih =>
    simp only [exprsB]
    exact le_step (exprB_mono p pos) (ih _)

theorem hashPairB_mono (pair : BHashPair) (pos : Nat) : pos ≤ (hashPairB pair pos).2 := by
  simp only [hashPairB, spannedB]
  exact exprB_mono pair.value pos

theorem hashPairsB_mono (pairs : List BHashPair) (pos : Nat) :
    pos ≤ (hashPairsB pairs pos).2 := by
  induction pairs generalizing pos with
  | nil => simp [hashPairsB]
  | cons p rest ih =>
    simp only [hashPairsB]
    exact le_step (hashPairB_mono p pos) (ih _)

theorem hashOptB_mono (hash : Option BHash) (pos : Nat) : pos ≤ (hashOptB hash pos).2 := by
  cases hash with
  | none => simp [hashOptB]
  | some h =>
    simp only [hashOptB, spannedB]
    exact hashPairsB_mono h.pairs pos

mutual

theorem visitB_mono (s : BStatement) (pos : Nat) : pos ≤ (visitB s pos).2 := by
  cases s with
  | content value => simp [visitB, consumeB]
  | contentMustache value =>
    simp only [visitB, spannedB]
    exact le_step (consumeB_mono _ _) (le_step (exprB_mono _ _) (consumeB_mono _ _))
  | mustacheCall call params hash =>
    simp only [visitB, spannedB]
    exact le_step (consumeB_mono _ _) (le_step (exprB_mono _ _) (le_step (exprsB_mono _ _)
      (le_step (hashOptB_mono _ _) (consumeB_mono _ _))))
  | blockCall call params hash program inverse =>
    cases params <;> cases hash <;> cases inverse <;> simp only [visitB, spannedB]
    · exact le_step (consumeB_mono _ _) (le_step (pathVB_mono _ _)
        (le_step (programOfB_mono _ _) (le_step (consumeB_mono _ _)
        (le_step (consumeB_mono _ _) (consumeB_mono _ _)))))
    · exact le_step (consumeB_mono _ _) (le_step (pathVB_mono _ _)
        (le_step (programOfB_mono _ _) (le_step (consumeB_mono _ _)
        (le_step (programOfB_mono _ _) (le_step (consumeB_mono _ _)
        (le_step (consumeB_mono _ _) (consumeB_mono _ _)))))))
    · exact le_step (consumeB_mono _ _) (le_step (pathVB_mono _ _)
        (le_step (consumeB_mono _ _) (le_step (hashOptB_mono _ _)
        (le_step (programOfB_mono _ _) (le_step (consumeB_mono _ _)
        (le_step (consumeB_mono _ _) (consumeB_mono _ _)))))))
    · exact le_step (consumeB_mono _ _) (le_step (pathVB_mono _ _)
        (le_step (consumeB_mono _ _) (le_step (hashOptB_mono _ _)
        (le_step (programOfB_mono _ _) (le_step (consumeB_mono _ _)
        (le_step (programOfB_mono _ _) (le_step (consumeB_mono _ _)
        (le_step (consumeB_mono _ _) (consumeB_mono _ _)))))))))
    · exact le_step (consumeB_mono _ _) (le_step (pathVB_mono _ _)
        (le_step (consumeB_mono _ _) (le_step (exprsB_mono _ _)
        (le_step (programOfB_mono _ _) (le_step (consumeB_mono _ _)
        (le_step (consumeB_mono _ _) (consumeB_mono _ _)))))))
    · exact le_step (consumeB_mono _ _) (le_step (pathVB_mono _ _)
        (le_step (consumeB_mono _ _) (le_step (exprsB_mono _ _)
        (le_step (programOfB_mono _ _) (le_step (consumeB_mono _ _)
        (le_step (programOfB_mono _ _) (le_step (consumeB_mono _ _)
        (le_step (consumeB_mono _ _) (consumeB_mono _ _)))))))))
    · exact le_step (consumeB_mono _ _) (le_step (pathVB_mono _ _)
        (le_step (consumeB_mono _ _) (le_step (exprsB_mono _ _)
        (le_step (consumeB_mono _ _) (le_step (hashOptB_mono _ _)
        (le_step (programOfB_mono _ _) (le_step (consumeB_mono _ _)
        (le_step (consumeB_mono _ _) (consumeB_mono _ _)))))))))
    · exact le_step (consumeB_mono _ _) (le_step (pathVB_mono _ _)
        (le_step (consumeB_mono _ _) (le_step (exprsB_mono _ _)
        (le_step (consumeB_mono _ _) (le_step (hashOptB_mono _ _)
        (le_step (programOfB_mono _ _) (le_step (consumeB_mono _ _)
        (le_step (programOfB_mono _ _) (le_step (consumeB_mono _ _)
        (le_step (consumeB_mono _ _) (consumeB_mono _ _)))))))))))

theorem visitListB_mono (body : List BStatement) (pos : Nat) :
    pos ≤ (visitListB body pos).2 := by
  cases body with
  | nil => simp [visitListB]
  | cons s rest =>
    simp only [visitListB]
    exact le_step (visitB_mono s pos) (visitListB_mono rest _)

theorem programOfB_mono (pr : BProgram) (pos : Nat) : pos ≤ (programOfB pr pos).2 := by
  cases pr with
  | mk body blockParams =>
    cases blockParams <;> simp only [programOfB, spannedB]
    · exact le_step (consumeB_mono _ _) (visitListB_mono body _)
    · exact le_step (consumeB_mono _ _) (le_step (consumeB_mono _ _)
        (le_step (consumeB_mono _ _) (visitListB_mono body _)))

end

theorem exprB_span (e : BExpr) (pos : Nat) :
    (exprB e pos).1.span = { start := pos, stop := (exprB e pos).2 } := by
  cases e with
  | lit v => cases v <;> rfl
  | path p => rfl

theorem visitB_span (s : BStatement) (pos : Nat) :
    (visitB s pos).1.span = { start := pos, stop := (visitB s pos).2 } := by
  cases s <;> rfl

/-- Claim C10 counterexample: constructing the builder hash pair `q=ab` at
cursor 0 consumes the two characters of its value, yet the pair node's span
has length 0 — the node's span length does not equal the number of characters
consumed while constructing it. -/
theorem c10_counterexample :
    (hashPairB c10cexPair 0).2 = 2 ∧
    (hashPairB c10cexPair 0).1.span.stop - (hashPairB c10cexPair 0).1.span.start = 0 :=
  ⟨rfl, rfl⟩

/-- Claim C10 (amended): `consume(chars)` returns the span from the cursor
before the call, of the consumed string's length, and advances the cursor by
exactly that length; `spanned(cb)` produces its node from the span between
the cursor positions before and after the callback; the cursor is
monotonically non-decreasing through every builder function; and each
statement or expression node's span runs from the cursor at the start of its
construction to the cursor after its `spanned` callback — which equals the
total consumed during construction for every node except `HashPair`, whose
value is consumed by the continuation after its (zero-width) span is fixed. -/
theorem c10_consume_spanned :
    (∀ (chars : List Char) (pos : Nat),
      consumeB chars pos =
        ({ start := pos, stop := pos + chars.length }, pos + chars.length)) ∧
    (∀ (a : Type) (cb : Nat → ((BSpan → Nat → a × Nat) × Nat)) (pos : Nat),
      spannedB cb pos = (cb pos).1 { start := pos, stop := (cb pos).2 } (cb pos).2) ∧
    (∀ (e : BExpr) (pos : Nat), pos ≤ (exprB e pos).2) ∧
    (∀ (s : BStatement) (pos : Nat), pos ≤ (visitB s pos).2) ∧
    (∀ (e : BExpr) (pos : Nat),
      (exprB e pos).1.span = { start := pos, stop := (exprB e pos).2 }) ∧
    (∀ (s : BStatement) (pos : Nat),
      (visitB s pos).1.span = { start := pos, stop := (visitB s pos).2 }) ∧
    (∀ (pair : BHashPair) (pos : Nat),
      (hashPairB pair pos).1.span = { start := pos, stop := pos } ∧
      (hashPairB pair pos).2 = (exprB pair.value pos).2) :=
  ⟨fun _ _ => rfl, fun _ _ _ => rfl, exprB_mono, visitB_mono, exprB_span, visitB_span,
    fun _ _ => ⟨rfl, rfl⟩⟩
